import Mathlib

/-!
Verification development for the "Cognitive Layer AI" content script
(AI-powered screen reader enhancement).  The DOM is embedded as a
first-child / next-sibling tree; strings are lists of characters
(`innerText` is modelled as the concatenation of all descendant text
nodes).  The three enrichment pipelines (`generateOverview`,
`generateCues`, `fixContextLabels`) are embedded as functions from a
document and a capability oracle to a final state plus a trace of
observable events (sleeps, capability session creation / generation
calls / teardown, announcements, document mutations).  The capability
oracle returns `none` for a generation call that throws.
-/

namespace CogLayer

/-- Character-list strings (JS strings). -/
abbrev Str := List Char

def strOf (s : String) : Str := s.toList

def isWS (c : Char) : Bool := decide (c = ' ' ∨ c = '\n' ∨ c = '\t' ∨ c = '\r')

/-- JS `String.prototype.trim` (whitespace stripped from both ends). -/
def trim (s : Str) : Str :=
  ((s.dropWhile isWS).reverse.dropWhile isWS).reverse

def lowerStr (s : Str) : Str := s.map Char.toLower

-- ============================================================
-- DOM embedding
-- ============================================================

inductive Tag where
  | h1 | h2 | h3 | h4 | h5 | h6
  | p | div | span | a | button
  | script | style | nav | aside | noscript
  | mainT | article | body
deriving DecidableEq, Repr

/-- First-child / next-sibling encoding of a DOM forest.  A `Dom` value
is a list of sibling nodes; an element carries its tag, a numeric node
identity, its attribute list and its first child. -/
inductive Dom where
  | nil
  | txt (s : Str) (next : Dom)
  | el (tag : Tag) (nid : Nat) (attrs : List (Str × Str)) (child : Dom) (next : Dom)
deriving Repr

/-- Rank of a heading tag (`H1` .. `H6`). -/
def headingRank : Tag → Option Nat
  | .h1 => some 1 | .h2 => some 2 | .h3 => some 3
  | .h4 => some 4 | .h5 => some 5 | .h6 => some 6
  | _ => none

/-- `innerText` / `textContent`: concatenation of all descendant text. -/
def textOfList : Dom → Str
  | .nil => []
  | .txt s nx => s ++ textOfList nx
  | .el _ _ _ c nx => textOfList c ++ textOfList nx

/-- Context of an element found by id: its tag, attributes, children,
following siblings, and parent id (`none` for a top-level node). -/
structure Ctx where
  tag : Tag
  attrs : List (Str × Str)
  child : Dom
  after : Dom
  parent : Option Nat
deriving Repr

def findCtx (p : Option Nat) : Dom → Nat → Option Ctx
  | .nil, _ => none
  | .txt _ nx, h => findCtx p nx h
  | .el t n a c nx, h =>
    if n = h then some ⟨t, a, c, nx, p⟩
    else
      match findCtx (some n) c h with
      | some cx => some cx
      | none => findCtx p nx h

/-- `document.querySelectorAll("h1, h2, h3, h4, h5, h6")`: ids of all
heading elements in document (preorder) order. -/
def headingIds : Dom → List Nat
  | .nil => []
  | .txt _ nx => headingIds nx
  | .el t n _ c nx =>
    (if (headingRank t).isSome then [n] else []) ++ headingIds c ++ headingIds nx

/-- Largest node id occurring in the document (used to generate fresh
ids for inserted elements). -/
def maxId : Dom → Nat
  | .nil => 0
  | .txt _ nx => maxId nx
  | .el _ n _ c nx => max n (max (maxId c) (maxId nx))

/-- `getAttribute`: value of the first attribute with key `k`. -/
def getAttr (k : Str) : List (Str × Str) → Option Str
  | [] => none
  | q :: t => if q.1 = k then some q.2 else getAttr k t

/-- `setAttribute`: replace or add attribute `k ↦ v`. -/
def setA (k v : Str) (a : List (Str × Str)) : List (Str × Str) :=
  if a.any (fun q => decide (q.1 = k)) then a.map (fun q => if q.1 = k then (k, v) else q)
  else a ++ [(k, v)]

def setAttr (i : Nat) (k v : Str) : Dom → Dom
  | .nil => .nil
  | .txt s nx => .txt s (setAttr i k v nx)
  | .el t n a c nx =>
    .el t n (if n = i then setA k v a else a) (setAttr i k v c) (setAttr i k v nx)

/-- `insertAdjacentElement("afterend", box)`: insert a new element (tag
`bt`, id `bid`, attributes `ba`, children `bc`) directly after every
node with id `i`. -/
def insertAfterId (i : Nat) (bt : Tag) (bid : Nat) (ba : List (Str × Str)) (bc : Dom) : Dom → Dom
  | .nil => .nil
  | .txt s nx => .txt s (insertAfterId i bt bid ba bc nx)
  | .el t n a c nx =>
    if n = i then
      .el t n a (insertAfterId i bt bid ba bc c) (.el bt bid ba bc (insertAfterId i bt bid ba bc nx))
    else .el t n a (insertAfterId i bt bid ba bc c) (insertAfterId i bt bid ba bc nx)

-- attribute keys used by the script
def markKey : Str := strOf "data-cognitive-summary"
def fixedKey : Str := strOf "data-cognitive-fixed"
def ariaKey : Str := strOf "aria-label"
def hrefKey : Str := strOf "href"
def trueVal : Str := strOf "true"

-- ============================================================
-- SegmentationEngine: getSectionContent
-- ============================================================

/-- The sibling walk stops at a heading of rank at most `lvl`. -/
def stopsAt (lvl : Nat) (t : Tag) : Bool :=
  match headingRank t with
  | some r => decide (r ≤ lvl)
  | none => false

/-- Tags skipped while accumulating (`SCRIPT, STYLE, NAV, ASIDE`). -/
def skipTagB (t : Tag) : Bool :=
  decide (t = .script ∨ t = .style ∨ t = .nav ∨ t = .aside)

/-- Tier 1: walk the heading's following element siblings, stopping at a
heading of rank ≤ `lvl`; append each non-skipped sibling's text plus a
space when its trimmed text is non-empty; after each step, if the
accumulated length exceeds 3000 the content is truncated to 3000 and the
walk stops. -/
def sibWalk (lvl : Nat) : Str → Dom → Str
  | acc, .nil => acc
  | acc, .txt _ nx => sibWalk lvl acc nx
  | acc, .el t _ _ c nx =>
    if stopsAt lvl t then acc
    else
      let tx := textOfList c
      let acc1 := if skipTagB t = false ∧ trim tx ≠ [] then acc ++ tx ++ [' '] else acc
      if 3000 < acc1.length then acc1.take 3000
      else sibWalk lvl acc1 nx

/-- First heading rank among the descendants of a node
(`querySelector("h1, h2, h3, h4, h5, h6")`, which searches descendants
only). -/
def firstHeadingRankIn : Dom → Option Nat
  | .nil => none
  | .txt _ nx => firstHeadingRankIn nx
  | .el t _ _ c nx =>
    match headingRank t with
    | some r => some r
    | none =>
      match firstHeadingRankIn c with
      | some r => some r
      | none => firstHeadingRankIn nx

def psAppend (acc : Str) (t : Tag) (c : Dom) : Str :=
  if trim (textOfList c) ≠ [] ∧ skipTagB t = false then acc ++ textOfList c ++ [' '] else acc

/-- Tier 2: walk the parent's following element siblings while the
accumulated length is below 3000, stopping at a sibling whose first
nested heading has rank ≤ `lvl`.  Note that the length bound is checked
before each append, so a single sibling can push the content past
3000 characters. -/
def parentSibWalk (lvl : Nat) : Str → Dom → Str
  | acc, .nil => acc
  | acc, .txt _ nx => parentSibWalk lvl acc nx
  | acc, .el t _ _ c nx =>
    if acc.length < 3000 then
      match firstHeadingRankIn c with
      | some r =>
        if r ≤ lvl then acc
        else parentSibWalk lvl (psAppend acc t c) nx
      | none => parentSibWalk lvl (psAppend acc t c) nx
    else acc

/-- `getSectionContent(heading)`: three-tier extraction of the text
belonging to a heading (sibling walk; parent-sibling walk when below 50
characters; full parent text, truncated to 3000, when still below 50);
the result is trimmed. -/
def getSectionContent (d : Dom) (hid : Nat) : Str :=
  match findCtx none d hid with
  | none => []
  | some cx =>
    match headingRank cx.tag with
    | none => []
    | some lvl =>
      let c1 := sibWalk lvl [] cx.after
      let c2 :=
        if c1.length < 50 then
          match cx.parent with
          | some pid =>
            match findCtx none d pid with
            | some pcx => parentSibWalk lvl c1 pcx.after
            | none => c1
          | none => c1
        else c1
      let c3 :=
        if c2.length < 50 then
          match cx.parent with
          | some pid =>
            match findCtx none d pid with
            | some pcx => (textOfList pcx.child).take 3000
            | none => c2
          | none => c2
        else c2
      trim c3

-- ============================================================
-- ContentExtractor: extractMainContent, getElementContext
-- ============================================================

/-- Children of the first element with the given tag (preorder). -/
def findFirstTag (t : Tag) : Dom → Option Dom
  | .nil => none
  | .txt _ nx => findFirstTag t nx
  | .el t2 _ _ c nx =>
    if t2 = t then some c
    else
      match findFirstTag t c with
      | some r => some r
      | none => findFirstTag t nx

/-- Remove `script`, `style` and `noscript` subtrees (performed on a
clone by the script). -/
def removeNoise : Dom → Dom
  | .nil => .nil
  | .txt s nx => .txt s (removeNoise nx)
  | .el t n a c nx =>
    if t = .script ∨ t = .style ∨ t = .noscript then removeNoise nx
    else .el t n a (removeNoise c) (removeNoise nx)

def bodyChildren (d : Dom) : Dom :=
  match findFirstTag .body d with
  | some c => c
  | none => d

/-- `extractMainContent`: text of the `main` landmark, else `article`,
else the whole body, with noise removed, truncated to 5000 characters
and trimmed. -/
def extractMainContent (d : Dom) : Str :=
  let area :=
    match findFirstTag .mainT d with
    | some c => c
    | none =>
      match findFirstTag .article d with
      | some c => c
      | none => bodyChildren d
  trim ((textOfList (removeNoise area)).take 5000)

def parentIdOf (d : Dom) (i : Nat) : Option Nat :=
  match findCtx none d i with
  | some cx => cx.parent
  | none => none

/-- Text of the first heading among a forest's nodes and descendants. -/
def firstHeadingText : Dom → Option Str
  | .nil => none
  | .txt _ nx => firstHeadingText nx
  | .el t _ _ c nx =>
    if (headingRank t).isSome then some (textOfList c)
    else
      match firstHeadingText c with
      | some s => some s
      | none => firstHeadingText nx

/-- Ascend up to 5 ancestors while the context is empty, taking the text
of the first heading found inside each ancestor. -/
def ctxAscend (d : Dom) : Nat → Option Nat → Str → Str
  | 0, _, cx => cx
  | _, none, cx => cx
  | fuel + 1, some pid, cx =>
    if cx ≠ [] then cx
    else
      let cx1 :=
        match findCtx none d pid with
        | some pcx =>
          match firstHeadingText pcx.child with
          | some ht => ht
          | none => []
        | none => []
      ctxAscend d fuel (parentIdOf d pid) cx1

def parentText (d : Dom) (eid : Nat) : Str :=
  match parentIdOf d eid with
  | some pid =>
    match findCtx none d pid with
    | some pcx => textOfList pcx.child
    | none => []
  | none => []

/-- `getElementContext(element)`: nearest ancestor heading text plus up
to 200 characters of the immediate parent's text, trimmed. -/
def getElementContext (d : Dom) (eid : Nat) : Str :=
  trim (ctxAscend d 5 (parentIdOf d eid) [] ++ [' '] ++ (parentText d eid).take 200)

-- ============================================================
-- ElementSelector: ambiguous links and buttons
-- ============================================================

structure CtrlInfo where
  nid : Nat
  attrs : List (Str × Str)
  txt : Str
deriving DecidableEq, Repr

/-- `document.querySelectorAll("a, button")` in document order. -/
def collectCtrls : Dom → List CtrlInfo
  | .nil => []
  | .txt _ nx => collectCtrls nx
  | .el t n a c nx =>
    (if t = .a ∨ t = .button then [⟨n, a, textOfList c⟩] else [])
      ++ collectCtrls c ++ collectCtrls nx

def ambiguousTerms : List Str :=
  [strOf "click here", strOf "here", strOf "learn more", strOf "read more",
   strOf "more", strOf "continue", strOf "next", strOf "go", strOf "view", strOf "see"]

/-- Visible text of a control, trimmed then lower-cased. -/
def visText (ci : CtrlInfo) : Str := lowerStr (trim ci.txt)

/-- `hasAttribute("aria-label") && getAttribute("aria-label").trim()`. -/
def hasLabelB (ci : CtrlInfo) : Bool :=
  match getAttr ariaKey ci.attrs with
  | some v => decide (trim v ≠ [])
  | none => false

/-- Selection predicate of the source loop in `fixContextLabels`. -/
def needsFix (ci : CtrlInfo) : Bool :=
  !hasLabelB ci &&
    (ambiguousTerms.contains (visText ci)
      || decide ((visText ci).length < 3)
      || decide (visText ci = []))

/-- `elementsToFix`: the ambiguous controls, in document order. -/
def fixTargets (d : Dom) : List CtrlInfo := (collectCtrls d).filter needsFix

-- ============================================================
-- Result cleaning and acceptance for generated labels
-- ============================================================

def quoteCh : Char := Char.ofNat 39

def isQuoteC (c : Char) : Bool := decide (c = '"' ∨ c = quoteCh)

def isPunctC (c : Char) : Bool := decide (c = '.' ∨ c = '!' ∨ c = '?')

/-- Remove one leading character satisfying `p`. -/
def stripLead (p : Char → Bool) : Str → Str
  | [] => []
  | c :: t => if p c then t else c :: t

/-- Remove one trailing character satisfying `p`. -/
def stripTrail (p : Char → Bool) (s : Str) : Str :=
  (stripLead p s.reverse).reverse

/-- `response.trim().split("\n")[0]`. -/
def firstLine (s : Str) : Str := (trim s).takeWhile (fun c => !(c = '\n'))

/-- Cleaning applied to a generated label: first line of the trimmed
response, wrapping quotes removed, one trailing `.`/`!`/`?` removed,
truncated to 60 characters. -/
def cleanLabel (r : Str) : Str :=
  (stripTrail isPunctC (stripTrail isQuoteC (stripLead isQuoteC (firstLine r)))).take 60

/-- `label.split(" ")`. -/
def splitSp : Str → List Str
  | [] => [[]]
  | c :: t =>
    if c = ' ' then [] :: splitSp t
    else
      match splitSp t with
      | h :: r => (c :: h) :: r
      | [] => [[c]]

def wordCount (s : Str) : Nat := (splitSp s).length

/-- Acceptance policy for a generated label: non-empty and at most 8
space-separated words (checked after cleaning). -/
def acceptLabel (l : Str) : Bool := decide (l ≠ []) && decide (wordCount l ≤ 8)

-- ============================================================
-- Pipeline traces
-- ============================================================

inductive Avail where
  | available | unavailable | afterDownload
deriving DecidableEq, Repr

/-- Capability oracle: availability answer and the behaviour of every
generation call (`none` models a thrown error). -/
structure Oracle where
  avail : Avail
  gen : Str → Option Str

/-- Observable events of a pipeline run. -/
inductive Ev where
  | sleep (ms : Nat)
  | annInfo (s : Str)
  | annErr (s : Str)
  | availEv
  | createS (sid : Nat)
  | callS (sid : Nat) (item : Nat) (input : Str)
  | destroyS (sid : Nat)
  | markEv (hid : Nat)
  | insertNote (hid : Nat)
  | setLabelEv (eid : Nat) (l : Str)
  | insertTop
deriving DecidableEq, Repr

/-- Mutable pipeline state: the document, the success counter, the next
fresh node id and the next session id. -/
structure Core where
  doc : Dom
  success : Nat
  nextId : Nat
  nextSid : Nat

def stepFold (f : Core → Nat × Nat → Core × List Ev) :
    Core × List Ev → List (Nat × Nat) → Core × List Ev
  | s, [] => s
  | s, x :: xs =>
    let r := f s.1 x
    stepFold f (r.1, s.2 ++ r.2) xs

-- announcement payloads (interpolated counts elided)
def msgCuesStart : Str := strOf "Starting section summaries generation. Please wait."
def msgCuesFail : Str := strOf "Section summaries failed."
def msgDownload : Str := strOf "AI model needs to be downloaded."
def msgNoHeadings : Str := strOf "No section headings found on this page."
def msgCuesCount : Str := strOf "Generating summaries for sections."
def msgProcessing : Str := strOf "Processing section."
def msgProgress5 : Str := strOf "Processed sections."
def msgCuesDone : Str := strOf "Section summaries complete."
def msgFixStart : Str := strOf "Starting to fix ambiguous labels. Please wait."
def msgFixFail : Str := strOf "Label fixing failed."
def msgNoAmbiguous : Str := strOf "No ambiguous elements found."
def msgFixCount : Str := strOf "Fixing ambiguous links and buttons."
def msgProgress10 : Str := strOf "Processed elements."
def msgFixDone : Str := strOf "Label fixing complete."
def msgOvStart : Str := strOf "Starting AI overview generation. Please wait."
def msgOvFail : Str := strOf "AI Overview failed."
def msgTooShort : Str := strOf "Page content is too short to summarize."
def msgOvGen : Str := strOf "Generating summary. This may take a moment."
def msgOvDone : Str := strOf "AI Overview complete."

def noteAttrs : List (Str × Str) :=
  [(strOf "class", strOf "cognitive-section-summary"), (strOf "role", strOf "note")]

/-- Visible text of an inserted section-summary note. -/
def noteText (s : Str) : Str := strOf "📝 " ++ s

-- ============================================================
-- generateCues (section summaries; one summarizer per heading)
-- ============================================================

/-- One loop iteration of `generateCues` for heading `p.2` at index
`p.1`: delay, heading-text and processed-marker checks, section content
check (skip below 30 characters), then create a summarizer, call it,
destroy it after a successful call (a thrown call skips the teardown),
and on a non-empty summary mark the heading and insert a note after
it. -/
def cuesStepCore (o : Oracle) (c : Core) (p : Nat × Nat) : Core × List Ev :=
  match findCtx none c.doc p.2 with
  | none => (c, [.sleep 1000])
  | some cx =>
    let htext := trim (textOfList cx.child)
    if htext = [] ∨ 200 < htext.length then (c, [.sleep 1000])
    else if (getAttr markKey cx.attrs).isSome then (c, [.sleep 1000])
    else
      let content := getSectionContent c.doc p.2
      if content.length < 30 then (c, [.sleep 1000])
      else
        let sid := c.nextSid
        match o.gen content with
        | none =>
          ({ c with nextSid := sid + 1 },
           [.sleep 1000, .annInfo msgProcessing, .createS sid, .callS sid p.2 content])
        | some s =>
          if trim s = [] then
            ({ c with nextSid := sid + 1 },
             [.sleep 1000, .annInfo msgProcessing, .createS sid, .callS sid p.2 content,
              .destroyS sid])
          else
            let d1 := setAttr p.2 markKey trueVal c.doc
            let d2 := insertAfterId p.2 .div c.nextId noteAttrs (.txt (noteText s) .nil) d1
            (⟨d2, c.success + 1, c.nextId + 1, sid + 1⟩,
             [.sleep 1000, .annInfo msgProcessing, .createS sid, .callS sid p.2 content,
              .destroyS sid, .markEv p.2, .insertNote p.2]
               ++ (if (p.1 + 1) % 5 = 0 then [.annInfo msgProgress5] else []))

/-- The section-summaries pipeline run. -/
def generateCues (o : Oracle) (d : Dom) : Core × List Ev :=
  let c0 : Core := ⟨d, 0, maxId d + 1, 0⟩
  let tr0 : List Ev := [.annInfo msgCuesStart]
  match o.avail with
  | .unavailable => (c0, tr0 ++ [.availEv, .annErr msgCuesFail])
  | av =>
    let tr1 := tr0 ++ [.availEv] ++ (if av = .afterDownload then [.annInfo msgDownload] else [])
    let hs := headingIds d
    if hs = [] then (c0, tr1 ++ [.annInfo msgNoHeadings])
    else
      let r := stepFold (cuesStepCore o) (c0, tr1 ++ [.annInfo msgCuesCount]) hs.enum
      (r.1, r.2 ++ [.annInfo msgCuesDone])

-- ============================================================
-- fixContextLabels (ambiguous label repair; one shared session)
-- ============================================================

def promptFor (ct href cx : Str) : Str :=
  strOf "Generate an aria-label for this element: Text: " ++ ct
    ++ strOf " URL: " ++ href ++ strOf " Context: " ++ cx.take 200
    ++ strOf " Label (3-5 words):"

/-- One loop iteration of `fixContextLabels` for element `p.2` at index
`p.1`: delay, build the prompt, call the shared session (id 0); on a
successful call clean the response and, when accepted, write the
`aria-label` and `data-cognitive-fixed` attributes. -/
def labelsStepCore (o : Oracle) (c : Core) (p : Nat × Nat) : Core × List Ev :=
  match findCtx none c.doc p.2 with
  | none => (c, [.sleep 600])
  | some cx =>
    let context := getElementContext c.doc p.2
    let currentText := if textOfList cx.child = [] then strOf "button" else textOfList cx.child
    let href := match getAttr hrefKey cx.attrs with | some v => v | none => []
    let prompt := promptFor currentText href context
    match o.gen prompt with
    | none => (c, [.sleep 600, .callS 0 p.2 prompt])
    | some resp =>
      let label := cleanLabel resp
      if acceptLabel label then
        let d1 := setAttr p.2 ariaKey label c.doc
        let d2 := setAttr p.2 fixedKey trueVal d1
        ({ c with doc := d2, success := c.success + 1 },
         [.sleep 600, .callS 0 p.2 prompt, .setLabelEv p.2 label]
           ++ (if (p.1 + 1) % 10 = 0 then [.annInfo msgProgress10] else []))
      else (c, [.sleep 600, .callS 0 p.2 prompt])

/-- The label-repair pipeline run: one session created before the loop
and destroyed in a `finally` after it. -/
def fixContextLabels (o : Oracle) (d : Dom) : Core × List Ev :=
  let c0 : Core := ⟨d, 0, maxId d + 1, 0⟩
  let tr0 : List Ev := [.annInfo msgFixStart]
  match o.avail with
  | .unavailable => (c0, tr0 ++ [.availEv, .annErr msgFixFail])
  | av =>
    let tr1 := tr0 ++ [.availEv] ++ (if av = .afterDownload then [.annInfo msgDownload] else [])
    let ts := (fixTargets d).map (fun ci => ci.nid)
    if ts = [] then (c0, tr1 ++ [.annInfo msgNoAmbiguous])
    else
      let r := stepFold (labelsStepCore o) ({ c0 with nextSid := 1 },
        tr1 ++ [.annInfo msgFixCount, .createS 0]) ts.enum
      (r.1, r.2 ++ [.destroyS 0, .annInfo msgFixDone])

-- ============================================================
-- generateOverview (whole-page summary)
-- ============================================================

/-- Insert the overview summary block before the body's first child. -/
def prependTop (s : Str) (bid : Nat) : Dom → Dom
  | .el .body n a c nx => .el .body n a (.el .div bid [] (.txt s .nil) c) nx
  | d => d

/-- The whole-page overview run: availability check, content-length
precondition, a single summarizer session and call; the session is
destroyed only after a successful call (a thrown call reaches the outer
handler without any teardown). -/
def generateOverview (o : Oracle) (d : Dom) : Core × List Ev :=
  let c0 : Core := ⟨d, 0, maxId d + 1, 0⟩
  let tr0 : List Ev := [.annInfo msgOvStart]
  match o.avail with
  | .unavailable => (c0, tr0 ++ [.availEv, .annErr msgOvFail])
  | av =>
    let tr1 := tr0 ++ [.availEv] ++ (if av = .afterDownload then [.annInfo msgDownload] else [])
    let text := extractMainContent d
    if text.length < 50 then (c0, tr1 ++ [.annInfo msgTooShort])
    else
      let tr2 := tr1 ++ [.annInfo msgOvGen, .createS 0, .callS 0 0 text]
      match o.gen text with
      | none => ({ c0 with nextSid := 1 }, tr2 ++ [.annErr msgOvFail])
      | some s =>
        let tr3 := tr2 ++ [.destroyS 0]
        if trim s = [] then ({ c0 with nextSid := 1 }, tr3 ++ [.annErr msgOvFail])
        else
          ({ c0 with
              doc := prependTop (strOf "🧠 Page Summary" ++ s) c0.nextId d
              nextId := c0.nextId + 1
              nextSid := 1 },
           tr3 ++ [.insertTop, .annInfo msgOvDone])

-- ============================================================
-- AnnouncementChannel: announce(text)
-- ============================================================

inductive Wr where
  | clearW (call : Nat)
  | setW (call : Nat) (s : Str)
deriving DecidableEq, Repr

/-- The three region writes performed by one `announce(x)` call made at
time `t0`: a synchronous clear, a set after 100 ms, a clear after
10 s.  The second component is the registration sequence number used to
order simultaneous timers. -/
def announceOps (callId t0 : Nat) (x : Str) : List (Nat × Nat × Wr) :=
  [(t0, 3 * callId, .clearW callId),
   (t0 + 100, 3 * callId + 1, .setW callId x),
   (t0 + 10000, 3 * callId + 2, .clearW callId)]

def opBefore (a b : Nat × Nat × Wr) : Prop :=
  a.1 < b.1 ∨ (a.1 = b.1 ∧ a.2.1 < b.2.1)

instance (a b : Nat × Nat × Wr) : Decidable (opBefore a b) := by
  unfold opBefore; infer_instance

def insSorted (x : Nat × Nat × Wr) : List (Nat × Nat × Wr) → List (Nat × Nat × Wr)
  | [] => [x]
  | y :: t => if opBefore x y then x :: y :: t else y :: insSorted x t

def sortOps : List (Nat × Nat × Wr) → List (Nat × Nat × Wr)
  | [] => []
  | x :: t => insSorted x (sortOps t)

/-- The write sequence the live region sees when `announce(x)` is called
twice back to back (both at time 0): all pending writes executed in
(time, registration) order. -/
def announceTwice (x : Str) : List Wr :=
  (sortOps (announceOps 0 0 x ++ announceOps 1 0 x)).map (fun p => p.2.2)

/-- Checks that every `setW` of call `i` is preceded by some clear of
the region. -/
def setPrecededAux (i : Nat) : Bool → List Wr → Bool
  | _, [] => true
  | _, .clearW _ :: t => setPrecededAux i true t
  | seen, .setW j _ :: t =>
    if j = i then seen && setPrecededAux i seen t else setPrecededAux i seen t

def setPreceded (i : Nat) (ws : List Wr) : Bool := setPrecededAux i false ws

-- ============================================================
-- Trace checkers
-- ============================================================

def isCallEv : Ev → Bool
  | .callS _ _ _ => true
  | _ => false

def isErrAnn : Ev → Bool
  | .annErr _ => true
  | _ => false

def isCreateEv : Ev → Bool
  | .createS _ => true
  | _ => false

def isDestroyEv : Ev → Bool
  | .destroyS _ => true
  | _ => false

/-- Live-session counter check: `true` iff no session is created while
another is still live (and the live count never exceeds one). -/
def goLive : Nat → List Ev → Bool
  | _, [] => true
  | l, .createS _ :: t => decide (l = 0) && goLive (l + 1) t
  | l, .destroyS _ :: t => goLive (l - 1) t
  | l, _ :: t => goLive l t

def atMostOneLive (tr : List Ev) : Bool := goLive 0 tr

def liveAfter : Nat → List Ev → Nat
  | l, [] => l
  | l, .createS _ :: t => liveAfter (l + 1) t
  | l, .destroyS _ :: t => liveAfter (l - 1) t
  | l, _ :: t => liveAfter l t

/-- Throttling check: every capability call is preceded by a sleep of at
least `d` milliseconds with no other call in between (so consecutive
calls are separated by at least `d`). -/
def sepChk (d : Nat) : Bool → List Ev → Bool
  | _, [] => true
  | f, .sleep m :: t => sepChk d (f || decide (d ≤ m)) t
  | f, .callS _ _ _ :: t => f && sepChk d false t
  | f, _ :: t => sepChk d f t

def flagAfter (d : Nat) : Bool → List Ev → Bool
  | f, [] => f
  | f, .sleep m :: t => flagAfter d (f || decide (d ≤ m)) t
  | _, .callS _ _ _ :: t => flagAfter d false t
  | f, _ :: t => flagAfter d f t

/-- A heading id counts as marked when its element carries the
`data-cognitive-summary` attribute. -/
def isMarkedId (d : Dom) (h : Nat) : Bool :=
  match findCtx none d h with
  | some cx => (getAttr markKey cx.attrs).isSome
  | none => false

/-- Marked heading ids of a document, in document order. -/
def markedIds (d : Dom) : List Nat :=
  (headingIds d).filter (fun h => isMarkedId d h)

/-- Does an event perform a capability call for, or insert a note after,
the item with id `h`? -/
def touchesItem (h : Nat) : Ev → Bool
  | .callS _ i _ => decide (i = h)
  | .insertNote i => decide (i = h)
  | _ => false

/-- All node ids in the document are below `b` (inserted notes receive
fresh ids starting above every existing id). -/
def allIdsLt (b : Nat) : Dom → Bool
  | .nil => true
  | .txt _ nx => allIdsLt b nx
  | .el _ n _ c nx => decide (n < b) && allIdsLt b c && allIdsLt b nx

/-- Cut a sibling forest at the first element that stops the sibling
walk (a heading of rank ≤ `lvl`).  Used to state that the sibling walk
never reads content at or beyond such a heading. -/
def truncAtStop (lvl : Nat) : Dom → Dom
  | .nil => .nil
  | .txt s nx => .txt s (truncAtStop lvl nx)
  | .el t n a c nx => if stopsAt lvl t then .nil else .el t n a c (truncAtStop lvl nx)

-- ============================================================
-- Claim-side (specification-worded) predicate for ambiguous controls
-- ============================================================

/-- Spec wording: the control carries a non-empty accessible-name
override (`aria-label` whose trimmed value is non-empty). -/
def hasNonEmptyAria (ci : CtrlInfo) : Bool :=
  match getAttr ariaKey ci.attrs with
  | some v => decide (trim v ≠ [])
  | none => false

/-- The fixed ambiguous-phrase set named by the specification. -/
def claimTerms : List Str :=
  [strOf "click here", strOf "here", strOf "learn more", strOf "read more",
   strOf "more", strOf "continue", strOf "next", strOf "go", strOf "view", strOf "see"]

/-- Spec wording of the selection predicate: no non-empty accessible
name, and the trimmed case-folded visible text is in the ambiguous set,
or has length under 3, or is empty. -/
def claimAmbiguous (ci : CtrlInfo) : Bool :=
  !hasNonEmptyAria ci &&
    (claimTerms.contains (lowerStr (trim ci.txt))
      || decide ((lowerStr (trim ci.txt)).length < 3)
      || decide (lowerStr (trim ci.txt) = []))

-- ============================================================
-- Concrete documents and oracles used in counterexamples and witnesses
-- ============================================================

def rep (c : Char) (n : Nat) : Str := List.replicate n c

def tnode (s : Str) : Dom := .txt s .nil

/-- Oracle that always accepts and returns a fixed short summary. -/
def okOracle : Oracle := ⟨.available, fun _ => some (strOf "A short summary here.")⟩

/-- An H2 with 40 characters of sibling content inside a `div`, followed
by a 3100-character paragraph sibling of the `div`: the tier-2 fallback
appends the whole sibling and the result exceeds 3000 characters. -/
def d1 : Dom :=
  .el .body 0 []
    (.el .div 1 [] (.el .h2 2 [] (tnode (strOf "A")) (.el .p 3 [] (tnode (rep 'a' 40)) .nil))
      (.el .p 4 [] (tnode (rep 'b' 3100)) .nil))
    .nil

/-- An H2 with a short section, followed inside the same `div` by a
sibling H2 of equal rank owning 100 characters of `z` content: the
tier-3 fallback returns the whole parent text, including the sibling
heading's content. -/
def dX : Dom :=
  .el .body 0 []
    (.el .div 1 []
      (.el .h2 2 [] (tnode (strOf "A"))
        (.el .p 3 [] (tnode (rep 'a' 10))
          (.el .h2 4 [] (tnode (strOf "B")) (.el .p 5 [] (tnode (rep 'z' 100)) .nil))))
      .nil)
    .nil

/-- An H2 followed by a 60-character paragraph: the sibling walk alone
reaches the 50-character threshold (primary path). -/
def dW : Dom :=
  .el .body 0 [] (.el .h2 1 [] (tnode (strOf "T")) (.el .p 2 [] (tnode (rep 'c' 60)) .nil)) .nil

/-- Two H2 sections: the first with 60 characters of direct sibling
content, the second with 30 characters (its content falls back to the
96-character body text). -/
def d2 : Dom :=
  .el .body 0 []
    (.el .h2 1 [] (tnode (strOf "One"))
      (.el .p 2 [] (tnode (rep 'a' 60))
        (.el .h2 3 [] (tnode (strOf "Two"))
          (.el .p 4 [] (tnode (rep 'b' 30)) .nil))))
    .nil

/-- Oracle whose generation call throws exactly on the first section's
60-character content and succeeds elsewhere. -/
def errOracle : Oracle :=
  ⟨.available, fun s => if s.length = 60 then none else some (strOf "ok summary")⟩

/-- A body with 60 characters of content (enough for an overview). -/
def d3 : Dom := .el .body 0 [] (.el .p 1 [] (tnode (rep 'a' 60)) .nil) .nil

/-- Oracle whose every generation call throws. -/
def errAll : Oracle := ⟨.available, fun _ => none⟩

/-- The C4 scenario document: three headings (H1, H2, H3) whose sections
hold 40, 20 and 200 characters of paragraph content. -/
def d4 : Dom :=
  .el .body 0 []
    (.el .h1 1 [] (tnode (strOf "Alpha"))
      (.el .p 2 [] (tnode (rep 'a' 40))
        (.el .h2 3 [] (tnode (strOf "Beta"))
          (.el .p 4 [] (tnode (rep 'b' 20))
            (.el .h3 5 [] (tnode (strOf "Gamma"))
              (.el .p 6 [] (tnode (rep 'c' 200)) .nil))))))
    .nil

def sum25 : Str := strOf "This section covers it ok"

/-- Oracle returning a fixed 25-character summary. -/
def o8 : Oracle := ⟨.available, fun _ => some sum25⟩

/-- Document whose H2 section text is 3 characters (skipped), while a
deeper H4 succeeds through the parent-text fallback; the note the first
run inserts after the H4 enlarges the H2's tier-2 text past the
thresholds, so a second run processes the H2. -/
def d8 : Dom :=
  .el .body 0 []
    (.el .div 1 [] (.el .h2 2 [] (tnode (strOf "A")) (.el .p 3 [] (tnode (strOf "bb")) .nil))
      (.el .div 5 []
        (.el .div 6 []
          (.el .h4 7 [] (tnode (strOf "x")) (.el .p 8 [] (tnode (rep 'd' 40)) .nil))
          .nil)
        .nil))
    .nil

/-- A single ambiguous link with visible text `here`. -/
def dl : Dom := .el .body 0 [] (.el .a 1 [] (tnode (strOf "here")) .nil) .nil

/-- Oracle returning a fixed three-word label. -/
def ol : Oracle := ⟨.available, fun _ => some (strOf "Open documentation page")⟩

/-- A link carrying an explicit `aria-label`, with ambiguous text. -/
def ciLbl : CtrlInfo := ⟨1, [(ariaKey, strOf "Go to the docs")], strOf "here"⟩

def dLbl : Dom :=
  .el .body 0 [] (.el .a 1 [(ariaKey, strOf "Go to the docs")] (tnode (strOf "here")) .nil) .nil

-- ============================================================
-- General lemmas about strings and the section walk
-- ============================================================

theorem length_dropWhile_le (p : Char → Bool) (l : Str) :
    (l.dropWhile p).length ≤ l.length := by
  induction l with
  | nil => simp
  | cons a t ih =>
    rw [List.dropWhile_cons]
    split
    · exact le_trans ih (by simp)
    · simp

theorem trim_length_le (s : Str) : (trim s).length ≤ s.length := by
  unfold trim
  calc (((s.dropWhile isWS).reverse.dropWhile isWS).reverse).length
      = ((s.dropWhile isWS).reverse.dropWhile isWS).length := by rw [List.length_reverse]
    _ ≤ (s.dropWhile isWS).reverse.length := length_dropWhile_le _ _
    _ = (s.dropWhile isWS).length := by rw [List.length_reverse]
    _ ≤ s.length := length_dropWhile_le _ _

theorem countP_dropWhile (p q : Char → Bool) (h : ∀ c, p c = true → q c = false)
    (l : Str) : (l.dropWhile p).countP q = l.countP q := by
  induction l with
  | nil => simp
  | cons a t ih =>
    rw [List.dropWhile_cons]
    split
    · rename_i hp
      rw [ih, List.countP_cons, h a hp]
      simp
    · rfl

theorem countP_trim (q : Char → Bool) (h : ∀ c, isWS c = true → q c = false)
    (s : Str) : (trim s).countP q = s.countP q := by
  unfold trim
  rw [List.countP_reverse, countP_dropWhile _ _ h, List.countP_reverse,
    countP_dropWhile _ _ h]

theorem trim_ne_nil_of_countP (s : Str)
    (h : 0 < s.countP (fun c => !isWS c)) : trim s ≠ [] := by
  intro he
  have hc := countP_trim (fun c => !isWS c) (fun c hc => by simp [hc]) s
  rw [he] at hc
  simp at hc
  omega

theorem countP_replicate (q : Char → Bool) (n : Nat) (c : Char) :
    (List.replicate n c).countP q = if q c then n else 0 := by
  induction n with
  | zero => simp
  | succ m ih =>
    rw [List.replicate_succ, List.countP_cons, ih]
    split <;> simp

/-- The sibling walk never produces more than 3000 characters. -/
theorem sibWalk_length_le (lvl : Nat) (d : Dom) :
    ∀ acc : Str, acc.length ≤ 3000 → (sibWalk lvl acc d).length ≤ 3000 := by
  induction d with
  | nil => intro acc h; simpa [sibWalk]
  | txt s nx ih => intro acc h; simpa [sibWalk] using ih acc h
  | el t n a c nx ihc ihn =>
    intro acc h
    rw [sibWalk]
    split
    · exact h
    · dsimp only
      by_cases hap : skipTagB t = false ∧ trim (textOfList c) ≠ []
      · rw [if_pos hap]
        split
        · simp [List.length_take]
        · rename_i h2
          exact ihn _ (by omega)
      · rw [if_neg hap]
        split
        · simp [List.length_take]
        · rename_i h2
          exact ihn _ (by omega)

/-- The sibling walk reads nothing at or beyond the first stopping
heading: cutting the sibling forest there does not change the result. -/
theorem sibWalk_trunc (lvl : Nat) (d : Dom) :
    ∀ acc : Str, sibWalk lvl acc (truncAtStop lvl d) = sibWalk lvl acc d := by
  induction d with
  | nil => intro acc; rfl
  | txt s nx ih => intro acc; rw [truncAtStop, sibWalk, sibWalk, ih]
  | el t n a c nx ihc ihn =>
    intro acc
    rw [truncAtStop]
    split
    · rename_i hstop
      rw [sibWalk, sibWalk, if_pos hstop]
    · rename_i hstop
      rw [sibWalk, sibWalk, if_neg hstop, if_neg hstop]
      dsimp only
      by_cases hap : skipTagB t = false ∧ trim (textOfList c) ≠ []
      · rw [if_pos hap]
        split
        · rfl
        · exact ihn _
      · rw [if_neg hap]
        split
        · rfl
        · exact ihn _

set_option maxRecDepth 4000

-- ============================================================
-- C1: section content bound and exclusion
-- ============================================================

/-- C1 counterexample: the claim "getSectionContent(H) returns non-empty
text whose length is at most 3000 characters and which excludes content
belonging to a following sibling heading of rank ≤ H's rank" is false on
the code.  In `d1` the H2 owns 40 characters of sibling content, so the
parent-sibling fallback runs and appends a whole 3100-character sibling
(the 3000 bound is only checked before the append), producing more than
3000 characters.  In `dX` the parent-text fallback returns text
containing the 'z' content that belongs to the following sibling H2 of
equal rank. -/
theorem C1_counterexample :
    3000 < (getSectionContent d1 2).length ∧ 'z' ∈ getSectionContent dX 2 := by
  refine ⟨?_, by decide⟩
  have hfind : findCtx none d1 2 = some ⟨.h2, [], tnode (strOf "A"),
      .el .p 3 [] (tnode (rep 'a' 40)) .nil, some 1⟩ := rfl
  have hpar : findCtx none d1 1 = some ⟨.div, [],
      .el .h2 2 [] (tnode (strOf "A")) (.el .p 3 [] (tnode (rep 'a' 40)) .nil),
      .el .p 4 [] (tnode (rep 'b' 3100)) .nil, some 0⟩ := rfl
  have hsib : sibWalk 2 [] (Dom.el .p 3 [] (tnode (rep 'a' 40)) .nil)
      = rep 'a' 40 ++ [' '] := by decide
  have hl1 : (rep 'a' 40 ++ ([' '] : Str)).length = 41 := by
    simp only [rep, List.length_append, List.length_replicate, List.length_cons,
      List.length_nil]
  have htx : textOfList (tnode (rep 'b' 3100)) = rep 'b' 3100 ++ [] := rfl
  have hb : (0 : Nat) < (rep 'b' 3100 ++ ([] : Str)).countP (fun c => !isWS c) := by
    rw [rep, List.countP_append, countP_replicate]
    decide
  have htne : trim (textOfList (tnode (rep 'b' 3100))) ≠ [] := by
    rw [htx]
    exact trim_ne_nil_of_countP _ hb
  have hps : psAppend (rep 'a' 40 ++ [' ']) .p (tnode (rep 'b' 3100))
      = (rep 'a' 40 ++ [' ']) ++ textOfList (tnode (rep 'b' 3100)) ++ [' '] := by
    unfold psAppend
    rw [if_pos ⟨htne, rfl⟩]
  have hwalk : parentSibWalk 2 (rep 'a' 40 ++ [' '])
        (Dom.el .p 4 [] (tnode (rep 'b' 3100)) .nil)
      = (rep 'a' 40 ++ [' ']) ++ textOfList (tnode (rep 'b' 3100)) ++ [' '] := by
    rw [parentSibWalk]
    rw [if_pos (show (rep 'a' 40 ++ ([' '] : Str)).length < 3000 by rw [hl1]; norm_num)]
    rw [show firstHeadingRankIn (tnode (rep 'b' 3100)) = none from rfl]
    dsimp only
    rw [hps, parentSibWalk]
  have hlbig : ((rep 'a' 40 ++ [' ']) ++ textOfList (tnode (rep 'b' 3100)) ++ ([' '] : Str)).length = 3142 := by
    rw [htx]
    simp only [List.length_append, rep, List.length_replicate, List.length_cons,
      List.length_nil]
  have hmain : getSectionContent d1 2
      = trim ((rep 'a' 40 ++ [' ']) ++ textOfList (tnode (rep 'b' 3100)) ++ [' ']) := by
    unfold getSectionContent
    rw [hfind]
    dsimp only [headingRank]
    rw [hsib]
    rw [if_pos (show (rep 'a' 40 ++ ([' '] : Str)).length < 50 by rw [hl1]; norm_num)]
    rw [hpar]
    dsimp only
    rw [hwalk]
    rw [if_neg (show ¬ ((rep 'a' 40 ++ [' ']) ++ textOfList (tnode (rep 'b' 3100)) ++ ([' '] : Str)).length < 50 by rw [hlbig]; norm_num)]
  rw [hmain]
  have h3 : (textOfList (tnode (rep 'b' 3100))).countP (fun c => !isWS c) = 3100 := by
    rw [htx, List.countP_append, rep, countP_replicate, if_pos (by decide)]
    simp
  have h4 : (((rep 'a' 40 ++ [' ']) ++ textOfList (tnode (rep 'b' 3100)) ++ ([' '] : Str))).countP (fun c => !isWS c)
      = ((rep 'a' 40 ++ ([' '] : Str)).countP (fun c => !isWS c)
          + (textOfList (tnode (rep 'b' 3100))).countP (fun c => !isWS c))
        + ([' '] : Str).countP (fun c => !isWS c) := by
    rw [List.countP_append, List.countP_append]
  have hct := countP_trim (fun c => !isWS c) (fun c hc => by simp [hc])
    ((rep 'a' 40 ++ [' ']) ++ textOfList (tnode (rep 'b' 3100)) ++ [' '])
  have hle := List.countP_le_length (p := fun c => !isWS c)
    (l := trim ((rep 'a' 40 ++ [' ']) ++ textOfList (tnode (rep 'b' 3100)) ++ [' ']))
  omega

/-- C1 (amended): when the sibling walk alone accumulates at least 50
characters (so no fallback runs), `getSectionContent` returns the
trimmed sibling-walk text, which is at most 3000 characters, reads
nothing at or beyond the first following sibling heading of rank ≤ the
heading's rank, and is non-empty provided the accumulated text contains
a non-whitespace character.  (The fallback paths may exceed 3000
characters and may include content beyond such a heading.) -/
theorem C1_section_content (d : Dom) (hid lvl : Nat) (cx : Ctx)
    (hfind : findCtx none d hid = some cx)
    (hrank : headingRank cx.tag = some lvl)
    (hlen : 50 ≤ (sibWalk lvl [] cx.after).length) :
    getSectionContent d hid = trim (sibWalk lvl [] cx.after)
    ∧ (getSectionContent d hid).length ≤ 3000
    ∧ sibWalk lvl [] cx.after = sibWalk lvl [] (truncAtStop lvl cx.after)
    ∧ (0 < (sibWalk lvl [] cx.after).countP (fun c => !isWS c) →
        getSectionContent d hid ≠ []) := by
  have hmain : getSectionContent d hid = trim (sibWalk lvl [] cx.after) := by
    unfold getSectionContent
    rw [hfind]
    dsimp only
    rw [hrank]
    dsimp only
    simp only [if_neg (show ¬ (sibWalk lvl [] cx.after).length < 50 by omega)]
  refine ⟨hmain, ?_, (sibWalk_trunc lvl cx.after []).symm, ?_⟩
  · rw [hmain]
    exact le_trans (trim_length_le _) (sibWalk_length_le lvl cx.after [] (by simp))
  · intro hpos
    rw [hmain]
    exact trim_ne_nil_of_countP _ hpos

/-- C1 witness: on `dW` (an H2 followed by a 60-character paragraph) the
primary path applies and yields non-empty text of at most 3000
characters. -/
theorem C1_section_content_witness :
    getSectionContent dW 1 ≠ [] ∧ (getSectionContent dW 1).length ≤ 3000 := by
  have h := C1_section_content dW 1 2
    ⟨.h2, [], tnode (strOf "T"), .el .p 2 [] (tnode (rep 'c' 60)) .nil, some 0⟩
    rfl rfl (by decide)
  exact ⟨h.2.2.2 (by decide), h.2.1⟩

-- ============================================================
-- C2 counterexample, C3, C4, C5, C9 (closed facts)
-- ============================================================

/-- C2 counterexample: the claim "at most one capability session created
by a run is live at any point; the run never creates a second session
while one it created is still un-released" is false on the code.  On
`d2` with an oracle whose first summarize call throws, the per-heading
summarizer of the first heading is never destroyed (the inner handler
skips the teardown), and the second heading's iteration creates another
session while the first is still un-released. -/
theorem C2_counterexample : atMostOneLive (generateCues errOracle d2).2 = false := by decide

/-- C3: the claim "each capability session the run created is released
exactly once on every exit path" is the stated design, but the code
violates it: on `d3` with a summarize call that throws,
`generateOverview` creates one session and never destroys it (the
`destroy()` sits after the `summarize` call with no `finally`); in
`generateCues` on `d2` two sessions are created but only one destroyed. -/
theorem C3_session_leak :
    (generateOverview errAll d3).2.countP isCreateEv = 1
    ∧ (generateOverview errAll d3).2.countP isDestroyEv = 0
    ∧ (generateCues errOracle d2).2.countP isCreateEv = 2
    ∧ (generateCues errOracle d2).2.countP isDestroyEv = 1 := by
  refine ⟨by decide, by decide, by decide, by decide⟩

/-- C4 counterexample: on the scenario document `d4` (three headings
with 40-, 20- and 200-character sections) the pipeline does NOT attempt
enrichment only for the third heading with one success: it makes three
capability calls and the success counter ends at 3, because the section
walk accumulates across lower-rank headings, the fallbacks supply text,
and the skip threshold in the code is 30 characters, so no heading is
skipped as "insufficient content". -/
theorem C4_counterexample :
    (generateCues okOracle d4).2.countP isCallEv = 3
    ∧ (generateCues okOracle d4).1.success = 3
    ∧ ¬ ((generateCues okOracle d4).2.countP isCallEv = 1
          ∧ (generateCues okOracle d4).1.success = 1) := by
  decide

/-- C4 (amended): on the scenario document all three headings receive a
capability call and, with every result accepted, the success counter
ends at 3. -/
theorem C4_all_attempted :
    (headingIds d4).length = 3
    ∧ (generateCues okOracle d4).2.countP isCallEv = 3
    ∧ (generateCues okOracle d4).1.success = 3 := by
  decide

/-- C5: when the availability check reports the backend unavailable,
each of the three pipelines aborts before any generation call: its trace
has zero capability calls and exactly one error announcement. -/
theorem C5_unavailable_aborts (d : Dom) (g : Str → Option Str) :
    ((generateCues ⟨.unavailable, g⟩ d).2.countP isCallEv = 0
      ∧ (generateCues ⟨.unavailable, g⟩ d).2.countP isErrAnn = 1)
    ∧ ((generateOverview ⟨.unavailable, g⟩ d).2.countP isCallEv = 0
      ∧ (generateOverview ⟨.unavailable, g⟩ d).2.countP isErrAnn = 1)
    ∧ ((fixContextLabels ⟨.unavailable, g⟩ d).2.countP isCallEv = 0
      ∧ (fixContextLabels ⟨.unavailable, g⟩ d).2.countP isErrAnn = 1) :=
  ⟨⟨rfl, rfl⟩, ⟨rfl, rfl⟩, rfl, rfl⟩

/-- C9: `announce("X")` followed immediately by `announce("X")` executes
two distinct clear-then-set cycles on the live region — the write
sequence is clear, clear, set "X", set "X", clear, clear (each call
contributing its own clear and set, ordered by time then registration),
and each call's set is preceded by a clear of the region; the pair is
not a single no-op. -/
theorem C9_announce_two_cycles :
    announceTwice (strOf "X")
      = [.clearW 0, .clearW 1, .setW 0 (strOf "X"), .setW 1 (strOf "X"), .clearW 0, .clearW 1]
    ∧ setPreceded 0 (announceTwice (strOf "X")) = true
    ∧ setPreceded 1 (announceTwice (strOf "X")) = true := by
  decide

/-- C8 counterexample: the claim "running the section-summaries pipeline
twice on an otherwise unchanged document yields the same set of marked
headings as running it once" is false on the code: on `d8` the first
run marks only heading 7 (the H2's section text is below the 30-character
threshold), but the note inserted after heading 7 enlarges the H2's
tier-2 fallback text past the thresholds, so the second run additionally
marks heading 2. -/
theorem C8_counterexample :
    markedIds ((generateCues o8 (generateCues o8 d8).1.doc).1.doc)
      ≠ markedIds ((generateCues o8 d8).1.doc) := by decide

-- ============================================================
-- C6: ambiguous-control selection
-- ============================================================

/-- C6: a link or button control is selected for label repair iff it has
no non-empty `aria-label` and its trimmed, case-folded visible text is
in the fixed ambiguous set, or has length under 3, or is empty; a
control with a non-empty `aria-label` is never selected; and the
selected controls form a sublist of the document-order control list. -/
theorem C6_selection (d : Dom) (ci : CtrlInfo) :
    (ci ∈ fixTargets d ↔ ci ∈ collectCtrls d ∧ claimAmbiguous ci = true)
    ∧ List.Sublist (fixTargets d) (collectCtrls d)
    ∧ (hasNonEmptyAria ci = true → ci ∉ fixTargets d) := by
  have he : ∀ x : CtrlInfo, needsFix x = claimAmbiguous x := fun x => rfl
  refine ⟨?_, List.filter_sublist _, ?_⟩
  · rw [fixTargets, List.mem_filter, he]
  · intro hA hmem
    rw [fixTargets, List.mem_filter, he] at hmem
    simp [claimAmbiguous, hA] at hmem

/-- C6 witness: a link whose visible text is the ambiguous phrase
`here` but which carries a non-empty `aria-label` is not selected. -/
theorem C6_selection_witness : ciLbl ∉ fixTargets dLbl :=
  (C6_selection dLbl ciLbl).2.2 (by decide)

-- ============================================================
-- C7: throttling
-- ============================================================

theorem cuesStep_sep (o : Oracle) (c : Core) (p : Nat × Nat) (f : Bool) :
    sepChk 1000 f (cuesStepCore o c p).2 = true := by
  unfold cuesStepCore
  split
  · simp [sepChk]
  · rename_i cx heq
    try dsimp only
    by_cases h1 : trim (textOfList cx.child) = [] ∨ 200 < (trim (textOfList cx.child)).length
    · rw [if_pos h1]; simp [sepChk]
    · rw [if_neg h1]
      by_cases h2 : (getAttr markKey cx.attrs).isSome = true
      · rw [if_pos h2]; simp [sepChk]
      · rw [if_neg h2]
        by_cases h3 : (getSectionContent c.doc p.2).length < 30
        · rw [if_pos h3]; simp [sepChk]
        · rw [if_neg h3]
          rcases hg : o.gen (getSectionContent c.doc p.2) with _ | s
          · simp only [hg]
            simp [sepChk]
          · simp only [hg]
            by_cases h4 : trim s = []
            · rw [if_pos h4]; simp [sepChk]
            · rw [if_neg h4]
              by_cases hp : (p.1 + 1) % 5 = 0 <;> simp [hp, sepChk]

theorem labelsStep_sep (o : Oracle) (c : Core) (p : Nat × Nat) (f : Bool) :
    sepChk 600 f (labelsStepCore o c p).2 = true := by
  unfold labelsStepCore
  split
  · simp [sepChk]
  · rename_i cx heq
    try dsimp only
    rcases hg : o.gen (promptFor
        (if textOfList cx.child = [] then strOf "button" else textOfList cx.child)
        (match getAttr hrefKey cx.attrs with | some v => v | none => [])
        (getElementContext c.doc p.2)) with _ | resp
    · simp only [hg]
      simp [sepChk]
    · simp only [hg]
      by_cases h4 : acceptLabel (cleanLabel resp) = true
      · rw [if_pos h4]
        by_cases hp : (p.1 + 1) % 10 = 0 <;> simp [hp, sepChk]
      · rw [if_neg h4]
        simp [sepChk]

theorem sepChk_append (D : Nat) (a b : List Ev) :
    ∀ f, sepChk D f (a ++ b) = (sepChk D f a && sepChk D (flagAfter D f a) b) := by
  induction a with
  | nil => intro f; simp [sepChk, flagAfter]
  | cons e t ih =>
    intro f
    cases e <;> simp [sepChk, flagAfter, ih, Bool.and_assoc]

theorem stepFold_sep (D : Nat) (f : Core → Nat × Nat → Core × List Ev)
    (hstep : ∀ c x g, sepChk D g (f c x).2 = true) :
    ∀ (xs : List (Nat × Nat)) (c : Core) (tr : List Ev),
      sepChk D false tr = true → sepChk D false (stepFold f (c, tr) xs).2 = true := by
  intro xs
  induction xs with
  | nil => intro c tr h; exact h
  | cons x t ih =>
    intro c tr h
    rw [stepFold]
    dsimp only
    apply ih
    rw [sepChk_append, h, hstep]
    rfl

/-- C7: within any single run, every capability call is preceded by a
fresh inter-item delay (1000 ms in the summarization loop, which lies in
the specified 800–1000 ms band, and 600 ms in the label-repair loop)
with no other call in between, so consecutive capability calls are
separated by at least the configured delay. -/
theorem C7_throttling (d : Dom) (o : Oracle) :
    sepChk 1000 false (generateCues o d).2 = true
    ∧ sepChk 600 false (fixContextLabels o d).2 = true := by
  obtain ⟨av, g⟩ := o
  constructor
  · cases av with
    | unavailable => simp [generateCues, sepChk]
    | available =>
      rw [generateCues]
      dsimp only
      split
      · simp [sepChk]
      · rw [sepChk_append]
        rw [Bool.and_eq_true]
        refine ⟨?_, ?_⟩
        · exact stepFold_sep 1000 _ (fun c x gg => cuesStep_sep _ c x gg) _ _ _ (by simp [sepChk])
        · simp [sepChk]
    | afterDownload =>
      rw [generateCues]
      dsimp only
      split
      · simp [sepChk]
      · rw [sepChk_append]
        rw [Bool.and_eq_true]
        refine ⟨?_, ?_⟩
        · exact stepFold_sep 1000 _ (fun c x gg => cuesStep_sep _ c x gg) _ _ _ (by simp [sepChk])
        · simp [sepChk]
  · cases av with
    | unavailable => simp [fixContextLabels, sepChk]
    | available =>
      rw [fixContextLabels]
      dsimp only
      split
      · simp [sepChk]
      · rw [sepChk_append]
        rw [Bool.and_eq_true]
        refine ⟨?_, ?_⟩
        · exact stepFold_sep 600 _ (fun c x gg => labelsStep_sep _ c x gg) _ _ _ (by simp [sepChk])
        · simp [sepChk]
    | afterDownload =>
      rw [fixContextLabels]
      dsimp only
      split
      · simp [sepChk]
      · rw [sepChk_append]
        rw [Bool.and_eq_true]
        refine ⟨?_, ?_⟩
        · exact stepFold_sep 600 _ (fun c x gg => labelsStep_sep _ c x gg) _ _ _ (by simp [sepChk])
        · simp [sepChk]

-- ============================================================
-- C2 (amended): at most one live session
-- ============================================================

theorem goLive_append (a b : List Ev) :
    ∀ l, goLive l (a ++ b) = (goLive l a && goLive (liveAfter l a) b) := by
  induction a with
  | nil => intro l; simp [goLive, liveAfter]
  | cons e t ih =>
    intro l
    cases e <;> simp [goLive, liveAfter, ih, Bool.and_assoc]

theorem liveAfter_append (a b : List Ev) :
    ∀ l, liveAfter l (a ++ b) = liveAfter (liveAfter l a) b := by
  induction a with
  | nil => intro l; simp [liveAfter]
  | cons e t ih =>
    intro l
    cases e <;> simp [liveAfter, ih]

theorem cuesStep_live (o : Oracle) (hgen : ∀ s, o.gen s ≠ none) (c : Core) (p : Nat × Nat) :
    goLive 0 (cuesStepCore o c p).2 = true ∧ liveAfter 0 (cuesStepCore o c p).2 = 0 := by
  unfold cuesStepCore
  split
  · simp [goLive, liveAfter]
  · rename_i cx heq
    try dsimp only
    by_cases h1 : trim (textOfList cx.child) = [] ∨ 200 < (trim (textOfList cx.child)).length
    · rw [if_pos h1]; simp [goLive, liveAfter]
    · rw [if_neg h1]
      by_cases h2 : (getAttr markKey cx.attrs).isSome = true
      · rw [if_pos h2]; simp [goLive, liveAfter]
      · rw [if_neg h2]
        by_cases h3 : (getSectionContent c.doc p.2).length < 30
        · rw [if_pos h3]; simp [goLive, liveAfter]
        · rw [if_neg h3]
          rcases hg : o.gen (getSectionContent c.doc p.2) with _ | s
          · exact absurd hg (hgen _)
          · simp only [hg]
            by_cases h4 : trim s = []
            · rw [if_pos h4]; simp [goLive, liveAfter]
            · rw [if_neg h4]
              by_cases hp : (p.1 + 1) % 5 = 0 <;> simp [hp, goLive, liveAfter]

theorem labelsStep_live (o : Oracle) (c : Core) (p : Nat × Nat) :
    ∀ l, goLive l (labelsStepCore o c p).2 = true ∧ liveAfter l (labelsStepCore o c p).2 = l := by
  intro l
  unfold labelsStepCore
  split
  · simp [goLive, liveAfter]
  · rename_i cx heq
    try dsimp only
    rcases hg : o.gen (promptFor
        (if textOfList cx.child = [] then strOf "button" else textOfList cx.child)
        (match getAttr hrefKey cx.attrs with | some v => v | none => [])
        (getElementContext c.doc p.2)) with _ | resp
    · simp only [hg]
      simp [goLive, liveAfter]
    · simp only [hg]
      by_cases h4 : acceptLabel (cleanLabel resp) = true
      · rw [if_pos h4]
        by_cases hp : (p.1 + 1) % 10 = 0 <;> simp [hp, goLive, liveAfter]
      · rw [if_neg h4]
        simp [goLive, liveAfter]

theorem stepFold_live0 (f : Core → Nat × Nat → Core × List Ev)
    (hstep : ∀ c x, goLive 0 (f c x).2 = true ∧ liveAfter 0 (f c x).2 = 0) :
    ∀ (xs : List (Nat × Nat)) (c : Core) (tr : List Ev),
      goLive 0 tr = true → liveAfter 0 tr = 0 →
      goLive 0 (stepFold f (c, tr) xs).2 = true ∧ liveAfter 0 (stepFold f (c, tr) xs).2 = 0 := by
  intro xs
  induction xs with
  | nil => intro c tr h1 h2; exact ⟨h1, h2⟩
  | cons x t ih =>
    intro c tr h1 h2
    rw [stepFold]
    dsimp only
    apply ih
    · rw [goLive_append, h1, h2, (hstep c x).1]
      rfl
    · rw [liveAfter_append, h2, (hstep _ x).2]

theorem stepFold_live1 (f : Core → Nat × Nat → Core × List Ev)
    (hstep : ∀ c x l, goLive l (f c x).2 = true ∧ liveAfter l (f c x).2 = l) :
    ∀ (xs : List (Nat × Nat)) (c : Core) (tr : List Ev),
      goLive 0 tr = true → liveAfter 0 tr = 1 →
      goLive 0 (stepFold f (c, tr) xs).2 = true ∧ liveAfter 0 (stepFold f (c, tr) xs).2 = 1 := by
  intro xs
  induction xs with
  | nil => intro c tr h1 h2; exact ⟨h1, h2⟩
  | cons x t ih =>
    intro c tr h1 h2
    rw [stepFold]
    dsimp only
    apply ih
    · rw [goLive_append, h1, h2, (hstep _ x 1).1]
      rfl
    · rw [liveAfter_append, h2, (hstep _ x 1).2]


/-- C2 (amended): the overview and label-repair runs never create a
second capability session while one is live, unconditionally; the
section-summaries run satisfies the same property provided no summarize
call throws; a throwing call leaks its per-heading session and the next
processed heading creates a second one. -/
theorem C2_at_most_one_live (d : Dom) (o : Oracle) :
    atMostOneLive (generateOverview o d).2 = true
    ∧ atMostOneLive (fixContextLabels o d).2 = true
    ∧ ((∀ s, o.gen s ≠ none) → atMostOneLive (generateCues o d).2 = true) := by
  obtain ⟨av, g⟩ := o
  refine ⟨?_, ?_, ?_⟩
  · cases av with
    | unavailable => simp [generateOverview, atMostOneLive, goLive]
    | available =>
      rw [generateOverview]
      dsimp only
      split
      · simp [atMostOneLive, goLive]
      · rcases hg : g (extractMainContent d) with _ | s
        · simp only [hg]
          simp [atMostOneLive, goLive]
        · simp only [hg]
          by_cases h4 : trim s = []
          · rw [if_pos h4]; simp [atMostOneLive, goLive]
          · rw [if_neg h4]; simp [atMostOneLive, goLive]
    | afterDownload =>
      rw [generateOverview]
      dsimp only
      split
      · simp [atMostOneLive, goLive]
      · rcases hg : g (extractMainContent d) with _ | s
        · simp only [hg]
          simp [atMostOneLive, goLive]
        · simp only [hg]
          by_cases h4 : trim s = []
          · rw [if_pos h4]; simp [atMostOneLive, goLive]
          · rw [if_neg h4]; simp [atMostOneLive, goLive]
  · cases av with
    | unavailable => simp [fixContextLabels, atMostOneLive, goLive]
    | available =>
      rw [fixContextLabels]
      dsimp only
      split
      · simp [atMostOneLive, goLive]
      · rw [atMostOneLive, goLive_append, Bool.and_eq_true]
        have h2 := stepFold_live1 (labelsStepCore ⟨.available, g⟩)
          (fun c x l => labelsStep_live ⟨.available, g⟩ c x l)
          ((fixTargets d).map (fun ci => ci.nid)).enum ⟨d, 0, maxId d + 1, 1⟩
          ([Ev.annInfo msgFixStart] ++ [Ev.availEv]
            ++ (if (Avail.available = Avail.afterDownload) then [Ev.annInfo msgDownload] else [])
            ++ [Ev.annInfo msgFixCount, Ev.createS 0])
          (by simp [goLive]) (by simp [liveAfter])
        refine ⟨h2.1, ?_⟩
        rw [h2.2]
        simp [goLive, liveAfter]
    | afterDownload =>
      rw [fixContextLabels]
      dsimp only
      split
      · simp [atMostOneLive, goLive]
      · rw [atMostOneLive, goLive_append, Bool.and_eq_true]
        have h2 := stepFold_live1 (labelsStepCore ⟨.afterDownload, g⟩)
          (fun c x l => labelsStep_live ⟨.afterDownload, g⟩ c x l)
          ((fixTargets d).map (fun ci => ci.nid)).enum ⟨d, 0, maxId d + 1, 1⟩
          ([Ev.annInfo msgFixStart] ++ [Ev.availEv]
            ++ (if (Avail.afterDownload = Avail.afterDownload) then [Ev.annInfo msgDownload] else [])
            ++ [Ev.annInfo msgFixCount, Ev.createS 0])
          (by simp [goLive]) (by simp [liveAfter])
        refine ⟨h2.1, ?_⟩
        rw [h2.2]
        simp [goLive, liveAfter]
  · intro hgen
    cases av with
    | unavailable => simp [generateCues, atMostOneLive, goLive]
    | available =>
      rw [generateCues]
      dsimp only
      split
      · simp [atMostOneLive, goLive]
      · rw [atMostOneLive, goLive_append, Bool.and_eq_true]
        have h2 := stepFold_live0 (cuesStepCore ⟨.available, g⟩)
          (fun c x => cuesStep_live ⟨.available, g⟩ hgen c x)
          (headingIds d).enum ⟨d, 0, maxId d + 1, 0⟩
          ([Ev.annInfo msgCuesStart] ++ [Ev.availEv]
            ++ (if (Avail.available = Avail.afterDownload) then [Ev.annInfo msgDownload] else [])
            ++ [Ev.annInfo msgCuesCount])
          (by simp [goLive]) (by simp [liveAfter])
        refine ⟨h2.1, ?_⟩
        rw [h2.2]
        simp [goLive]
    | afterDownload =>
      rw [generateCues]
      dsimp only
      split
      · simp [atMostOneLive, goLive]
      · rw [atMostOneLive, goLive_append, Bool.and_eq_true]
        have h2 := stepFold_live0 (cuesStepCore ⟨.afterDownload, g⟩)
          (fun c x => cuesStep_live ⟨.afterDownload, g⟩ hgen c x)
          (headingIds d).enum ⟨d, 0, maxId d + 1, 0⟩
          ([Ev.annInfo msgCuesStart] ++ [Ev.availEv]
            ++ (if (Avail.afterDownload = Avail.afterDownload) then [Ev.annInfo msgDownload] else [])
            ++ [Ev.annInfo msgCuesCount])
          (by simp [goLive]) (by simp [liveAfter])
        refine ⟨h2.1, ?_⟩
        rw [h2.2]
        simp [goLive]

/-- C2 witness: on the three-heading document with an always-succeeding
oracle, the summaries run keeps at most one session live. -/
theorem C2_at_most_one_live_witness : atMostOneLive (generateCues okOracle d4).2 = true :=
  (C2_at_most_one_live d4 okOracle).2.2 (fun s => by simp [okOracle])

-- ============================================================
-- C10: written labels are bounded
-- ============================================================

theorem cleanLabel_bounds (r : Str) (h : acceptLabel (cleanLabel r) = true) :
    (cleanLabel r).length ≤ 60 ∧ wordCount (cleanLabel r) ≤ 8 := by
  constructor
  · rw [cleanLabel, List.length_take]
    exact min_le_left _ _
  · rw [acceptLabel, Bool.and_eq_true, decide_eq_true_iff, decide_eq_true_iff] at h
    exact h.2

theorem labelsStep_setLabel (o : Oracle) (c : Core) (p : Nat × Nat) (eid : Nat) (l : Str)
    (hmem : Ev.setLabelEv eid l ∈ (labelsStepCore o c p).2) :
    l.length ≤ 60 ∧ wordCount l ≤ 8 := by
  unfold labelsStepCore at hmem
  revert hmem
  split
  · intro hmem; simp at hmem
  · rename_i cx heq
    try dsimp only
    rcases hg : o.gen (promptFor
        (if textOfList cx.child = [] then strOf "button" else textOfList cx.child)
        (match getAttr hrefKey cx.attrs with | some v => v | none => [])
        (getElementContext c.doc p.2)) with _ | resp
    · simp only [hg]
      intro hmem; simp at hmem
    · simp only [hg]
      by_cases h4 : acceptLabel (cleanLabel resp) = true
      · rw [if_pos h4]
        by_cases hp : (p.1 + 1) % 10 = 0 <;>
          · simp only [hp]
            intro hmem
            simp at hmem
            obtain ⟨he1, he2⟩ := hmem
            subst he2
            exact cleanLabel_bounds resp h4
      · rw [if_neg h4]
        intro hmem; simp at hmem

theorem stepFold_setLabel (f : Core → Nat × Nat → Core × List Ev)
    (P : Nat → Str → Prop)
    (hstep : ∀ c x eid l, Ev.setLabelEv eid l ∈ (f c x).2 → P eid l) :
    ∀ (xs : List (Nat × Nat)) (c : Core) (tr : List Ev),
      (∀ eid l, Ev.setLabelEv eid l ∈ tr → P eid l) →
      ∀ eid l, Ev.setLabelEv eid l ∈ (stepFold f (c, tr) xs).2 → P eid l := by
  intro xs
  induction xs with
  | nil => intro c tr h; exact h
  | cons x t ih =>
    intro c tr h
    rw [stepFold]
    dsimp only
    apply ih
    intro eid l hm
    rcases List.mem_append.mp hm with hA | hB
    · exact h eid l hA
    · exact hstep c x eid l hB

/-- C10: every `aria-label` the label-repair pipeline writes is the
cleaned response, truncated to 60 characters before the word-count
acceptance check, so an accepted (written) label has at most 60
characters and at most 8 space-separated words. -/
theorem C10_label_bounds (d : Dom) (o : Oracle) (eid : Nat) (l : Str)
    (hmem : Ev.setLabelEv eid l ∈ (fixContextLabels o d).2) :
    l.length ≤ 60 ∧ wordCount l ≤ 8 := by
  obtain ⟨av, g⟩ := o
  revert hmem
  cases av with
  | unavailable =>
    intro hmem
    simp [fixContextLabels] at hmem
  | available =>
    rw [fixContextLabels]
    dsimp only
    split
    · intro hmem; simp at hmem
    · intro hmem
      rcases List.mem_append.mp hmem with hA | hB
      · exact stepFold_setLabel _ (fun i s => s.length ≤ 60 ∧ wordCount s ≤ 8)
          (fun c x i s hm => labelsStep_setLabel _ c x i s hm) _ _ _
          (by intro i s hm; simp at hm) eid l hA
      · simp at hB
  | afterDownload =>
    rw [fixContextLabels]
    dsimp only
    split
    · intro hmem; simp at hmem
    · intro hmem
      rcases List.mem_append.mp hmem with hA | hB
      · exact stepFold_setLabel _ (fun i s => s.length ≤ 60 ∧ wordCount s ≤ 8)
          (fun c x i s hm => labelsStep_setLabel _ c x i s hm) _ _ _
          (by intro i s hm; simp at hm) eid l hA
      · simp at hB

/-- C10 witness: a concrete run writing the three-word label produced
from the response `Open documentation page`. -/
theorem C10_label_bounds_witness :
    (cleanLabel (strOf "Open documentation page")).length ≤ 60
    ∧ wordCount (cleanLabel (strOf "Open documentation page")) ≤ 8 :=
  C10_label_bounds dl ol 1 (cleanLabel (strOf "Open documentation page")) (by decide)

-- ============================================================
-- C8 (amended): marked headings persist and are skipped on re-runs
-- ============================================================

theorem findCtx_setAttr (i : Nat) (k v : Str) (h : Nat) :
    ∀ (d : Dom) (p : Option Nat),
      findCtx p (setAttr i k v d) h
        = (findCtx p d h).map (fun cx =>
            ⟨cx.tag, if h = i then setA k v cx.attrs else cx.attrs,
             setAttr i k v cx.child, setAttr i k v cx.after, cx.parent⟩) := by
  intro d
  induction d with
  | nil => intro p; rfl
  | txt s nx ih =>
    intro p
    rw [setAttr, findCtx, findCtx, ih]
  | el t n a c nx ihc ihn =>
    intro p
    rw [setAttr]
    by_cases hn : n = h
    · subst hn
      rw [findCtx, findCtx, if_pos rfl, if_pos rfl]
      simp
    · rw [findCtx, findCtx, if_neg hn, if_neg hn]
      rcases hX : findCtx (some n) c h with _ | cx
      · rw [ihc, hX, ihn]
        simp
      · rw [ihc, hX]
        simp

theorem findCtx_insertAfter (i : Nat) (bt : Tag) (bid : Nat) (ba : List (Str × Str))
    (bs : Str) (h : Nat) (hne : h ≠ bid) :
    ∀ (d : Dom) (p : Option Nat),
      findCtx p (insertAfterId i bt bid ba (.txt bs .nil) d) h
        = (findCtx p d h).map (fun cx =>
            ⟨cx.tag, cx.attrs, insertAfterId i bt bid ba (.txt bs .nil) cx.child,
             if h = i then
               Dom.el bt bid ba (.txt bs .nil) (insertAfterId i bt bid ba (.txt bs .nil) cx.after)
             else insertAfterId i bt bid ba (.txt bs .nil) cx.after,
             cx.parent⟩) := by
  intro d
  induction d with
  | nil => intro p; rfl
  | txt s nx ih =>
    intro p
    rw [insertAfterId, findCtx, findCtx, ih]
  | el t n a c nx ihc ihn =>
    intro p
    by_cases hn : n = h
    · subst hn
      by_cases hi : n = i
      · subst hi
        rcases hX : findCtx (some n) c n with _ | cx <;>
          simp [insertAfterId, findCtx, hX, ihc, ihn, Ne.symm hne]
      · rcases hX : findCtx (some n) c n with _ | cx <;>
          simp [insertAfterId, findCtx, hi, hX, ihc, ihn, Ne.symm hne]
    · by_cases hi : n = i
      · subst hi
        rcases hX : findCtx (some n) c h with _ | cx <;>
          simp [insertAfterId, findCtx, hn, hX, ihc, ihn, Ne.symm hne]
      · rcases hX : findCtx (some n) c h with _ | cx <;>
          simp [insertAfterId, findCtx, hn, hi, hX, ihc, ihn, Ne.symm hne]

theorem getAttr_setA (k v : Str) : ∀ a : List (Str × Str), getAttr k (setA k v a) = some v := by
  intro a
  induction a with
  | nil => simp [setA, getAttr]
  | cons q t ih =>
    by_cases hk : q.1 = k
    · simp [setA, hk, getAttr]
    · by_cases ht : (t.any (fun q => decide (q.1 = k))) = true
      · rw [setA] at ih ⊢
        simp only [List.any_cons, decide_eq_false hk, Bool.false_or, ht, if_true] at ih ⊢
        simp only [List.map_cons, getAttr, if_neg hk]
        simpa using ih
      · rw [setA] at ih ⊢
        simp only [List.any_cons, decide_eq_false hk, Bool.false_or, ht, if_false] at ih ⊢
        simp only [List.cons_append, getAttr, if_neg hk]
        simpa using ih

theorem allIdsLt_findCtx (h b : Nat) :
    ∀ (d : Dom) (p : Option Nat) (cx : Ctx),
      findCtx p d h = some cx → allIdsLt b d = true → h < b := by
  intro d
  induction d with
  | nil => intro p cx hf; exact absurd hf (by simp [findCtx])
  | txt s nx ih =>
    intro p cx hf hb
    exact ih p cx hf hb
  | el t n a c nx ihc ihn =>
    intro p cx hf hb
    rw [allIdsLt, Bool.and_eq_true, Bool.and_eq_true] at hb
    rw [findCtx] at hf
    by_cases hn : n = h
    · subst hn
      exact of_decide_eq_true hb.1.1
    · rw [if_neg hn] at hf
      rcases hX : findCtx (some n) c h with _ | cy
      · rw [hX] at hf
        exact ihn p cx hf hb.2
      · rw [hX] at hf
        exact ihc (some n) cy hX hb.1.2

theorem allIdsLt_setAttr (i : Nat) (k v : Str) (b : Nat) :
    ∀ d : Dom, allIdsLt b (setAttr i k v d) = allIdsLt b d := by
  intro d
  induction d with
  | nil => rfl
  | txt s nx ih => simp [setAttr, allIdsLt, ih]
  | el t n a c nx ihc ihn => simp [setAttr, allIdsLt, ihc, ihn]

theorem allIdsLt_insertAfter (i : Nat) (bt : Tag) (bid : Nat) (ba : List (Str × Str))
    (bs : Str) (b : Nat) (hbid : bid < b) :
    ∀ d : Dom, allIdsLt b d = true →
      allIdsLt b (insertAfterId i bt bid ba (.txt bs .nil) d) = true := by
  intro d
  induction d with
  | nil => intro hb; exact hb
  | txt s nx ih =>
    intro hb
    rw [insertAfterId, allIdsLt]
    exact ih hb
  | el t n a c nx ihc ihn =>
    intro hb
    rw [allIdsLt, Bool.and_eq_true, Bool.and_eq_true] at hb
    rw [insertAfterId]
    by_cases hi : n = i
    · rw [if_pos hi]
      simp [allIdsLt, hb.1.1, ihc hb.1.2, ihn hb.2, hbid]
    · rw [if_neg hi]
      simp [allIdsLt, hb.1.1, ihc hb.1.2, ihn hb.2]

theorem allIdsLt_mono (b b2 : Nat) (hb : b ≤ b2) :
    ∀ d : Dom, allIdsLt b d = true → allIdsLt b2 d = true := by
  intro d
  induction d with
  | nil => intro hx; rfl
  | txt s nx ih => intro hx; exact ih hx
  | el t n a c nx ihc ihn =>
    intro hx
    rw [allIdsLt, Bool.and_eq_true, Bool.and_eq_true] at hx
    have h1 := of_decide_eq_true hx.1.1
    simp [allIdsLt, ihc hx.1.2, ihn hx.2]
    omega

theorem allIdsLt_succ_maxId : ∀ d : Dom, allIdsLt (maxId d + 1) d = true := by
  intro d
  induction d with
  | nil => rfl
  | txt s nx ih => simpa [allIdsLt, maxId] using ih
  | el t n a c nx ihc ihn =>
    rw [allIdsLt, maxId]
    have h1 : maxId c ≤ max n (max (maxId c) (maxId nx)) :=
      le_trans (Nat.le_max_left _ _) (Nat.le_max_right _ _)
    have h2 : maxId nx ≤ max n (max (maxId c) (maxId nx)) :=
      le_trans (Nat.le_max_right _ _) (Nat.le_max_right _ _)
    have h0 : n < max n (max (maxId c) (maxId nx)) + 1 :=
      Nat.lt_succ_of_le (Nat.le_max_left _ _)
    simp [h0, allIdsLt_mono _ _ (Nat.succ_le_succ h1) c ihc,
      allIdsLt_mono _ _ (Nat.succ_le_succ h2) nx ihn]

theorem isMarkedId_setAttr_mark (i : Nat) (d : Dom) (hid : Nat)
    (hm : isMarkedId d hid = true) :
    isMarkedId (setAttr i markKey trueVal d) hid = true := by
  simp only [isMarkedId] at hm ⊢
  rw [findCtx_setAttr]
  rcases hX : findCtx none d hid with _ | cx
  · rw [hX] at hm
    simp at hm
  · rw [hX] at hm
    by_cases hi : hid = i
    · simp [hi, getAttr_setA]
    · simp [hi]
      exact hm

theorem isMarkedId_insertNote (i : Nat) (bt : Tag) (bid : Nat) (ba : List (Str × Str))
    (bs : Str) (d : Dom) (hid : Nat) (hne : hid ≠ bid) :
    isMarkedId (insertAfterId i bt bid ba (.txt bs .nil) d) hid = isMarkedId d hid := by
  simp only [isMarkedId]
  rw [findCtx_insertAfter _ _ _ _ _ _ hne]
  rcases hX : findCtx none d hid with _ | cx <;> simp

theorem cuesStep_preserve (o : Oracle) (hid : Nat) (c : Core) (p : Nat × Nat)
    (hm : isMarkedId c.doc hid = true)
    (hids : allIdsLt c.nextId c.doc = true) :
    isMarkedId (cuesStepCore o c p).1.doc hid = true
    ∧ allIdsLt (cuesStepCore o c p).1.nextId (cuesStepCore o c p).1.doc = true
    ∧ ∀ e ∈ (cuesStepCore o c p).2, touchesItem hid e = false := by
  unfold cuesStepCore
  split
  · refine ⟨hm, hids, ?_⟩
    intro e he
    simp at he
    subst he
    rfl
  · rename_i cx heq
    try dsimp only
    by_cases h1 : trim (textOfList cx.child) = [] ∨ 200 < (trim (textOfList cx.child)).length
    · rw [if_pos h1]
      refine ⟨hm, hids, ?_⟩
      intro e he
      simp at he
      subst he
      rfl
    · rw [if_neg h1]
      by_cases h2 : (getAttr markKey cx.attrs).isSome = true
      · rw [if_pos h2]
        refine ⟨hm, hids, ?_⟩
        intro e he
        simp at he
        subst he
        rfl
      · rw [if_neg h2]
        have hne : ¬ p.2 = hid := by
          intro he
          rw [he] at heq
          simp only [isMarkedId, heq] at hm
          exact h2 hm
        by_cases h3 : (getSectionContent c.doc p.2).length < 30
        · rw [if_pos h3]
          refine ⟨hm, hids, ?_⟩
          intro e he
          simp at he
          subst he
          rfl
        · rw [if_neg h3]
          rcases hg : o.gen (getSectionContent c.doc p.2) with _ | s
          · simp only [hg]
            refine ⟨hm, hids, ?_⟩
            intro e he
            simp at he
            rcases he with rfl | rfl | rfl | rfl <;> simp [touchesItem, hne]
          · simp only [hg]
            by_cases h4 : trim s = []
            · rw [if_pos h4]
              refine ⟨hm, hids, ?_⟩
              intro e he
              simp at he
              rcases he with rfl | rfl | rfl | rfl | rfl <;> simp [touchesItem, hne]
            · rw [if_neg h4]
              have hfound : ∃ cy, findCtx none c.doc hid = some cy := by
                simp only [isMarkedId] at hm
                rcases hY : findCtx none c.doc hid with _ | cy
                · rw [hY] at hm
                  simp at hm
                · exact ⟨cy, rfl⟩
              obtain ⟨cy, hY⟩ := hfound
              have hlt : hid < c.nextId := allIdsLt_findCtx hid c.nextId c.doc none cy hY hids
              have hneb : hid ≠ c.nextId := Nat.ne_of_lt hlt
              have hmark1 : isMarkedId (setAttr p.2 markKey trueVal c.doc) hid = true :=
                isMarkedId_setAttr_mark p.2 c.doc hid hm
              have hmark2 : isMarkedId (insertAfterId p.2 .div c.nextId noteAttrs
                  (.txt (noteText s) .nil) (setAttr p.2 markKey trueVal c.doc)) hid = true := by
                rw [isMarkedId_insertNote _ _ _ _ _ _ _ hneb]
                exact hmark1
              have hids2 : allIdsLt (c.nextId + 1) (insertAfterId p.2 .div c.nextId noteAttrs
                  (.txt (noteText s) .nil) (setAttr p.2 markKey trueVal c.doc)) = true := by
                apply allIdsLt_insertAfter _ _ _ _ _ _ (Nat.lt_succ_self _)
                rw [allIdsLt_setAttr]
                exact allIdsLt_mono _ _ (Nat.le_succ _) _ hids
              by_cases hp : (p.1 + 1) % 5 = 0
              · simp only [hp]
                refine ⟨hmark2, hids2, ?_⟩
                intro e he
                simp at he
                rcases he with rfl | rfl | rfl | rfl | rfl | rfl | rfl | rfl <;>
                  simp [touchesItem, hne]
              · simp only [hp]
                refine ⟨hmark2, hids2, ?_⟩
                intro e he
                simp at he
                rcases he with rfl | rfl | rfl | rfl | rfl | rfl | rfl <;>
                  simp [touchesItem, hne]

theorem stepFold_preserve (o : Oracle) (hid : Nat) :
    ∀ (xs : List (Nat × Nat)) (c : Core) (tr : List Ev),
      isMarkedId c.doc hid = true → allIdsLt c.nextId c.doc = true →
      (∀ e ∈ tr, touchesItem hid e = false) →
      isMarkedId (stepFold (cuesStepCore o) (c, tr) xs).1.doc hid = true
      ∧ (∀ e ∈ (stepFold (cuesStepCore o) (c, tr) xs).2, touchesItem hid e = false) := by
  intro xs
  induction xs with
  | nil => intro c tr h1 h2 h3; exact ⟨h1, h3⟩
  | cons x t ih =>
    intro c tr h1 h2 h3
    rw [stepFold]
    dsimp only
    have hs := cuesStep_preserve o hid c x h1 h2
    apply ih
    · exact hs.1
    · exact hs.2.1
    · intro e he
      rcases List.mem_append.mp he with hA | hB
      · exact h3 e hA
      · exact hs.2.2 e hB

theorem cues_run_preserve (o : Oracle) (d : Dom) (hid : Nat)
    (hm : isMarkedId d hid = true) :
    isMarkedId (generateCues o d).1.doc hid = true
    ∧ ∀ e ∈ (generateCues o d).2, touchesItem hid e = false := by
  obtain ⟨av, g⟩ := o
  cases av with
  | unavailable =>
    rw [generateCues]
    refine ⟨hm, ?_⟩
    intro e he
    simp at he
    rcases he with rfl | rfl | rfl <;> rfl
  | available =>
    rw [generateCues]
    dsimp only
    split
    · refine ⟨hm, ?_⟩
      intro e he
      simp at he
      rcases he with rfl | rfl | rfl <;> rfl
    · have hsf := stepFold_preserve ⟨.available, g⟩ hid (headingIds d).enum
        ⟨d, 0, maxId d + 1, 0⟩
        ([Ev.annInfo msgCuesStart] ++ [Ev.availEv]
          ++ (if (Avail.available = Avail.afterDownload) then [Ev.annInfo msgDownload] else [])
          ++ [Ev.annInfo msgCuesCount])
        hm (allIdsLt_succ_maxId d)
        (by intro e he; simp at he; rcases he with rfl | rfl | rfl <;> rfl)
      refine ⟨hsf.1, ?_⟩
      intro e he
      rcases List.mem_append.mp he with hA | hB
      · exact hsf.2 e hA
      · simp at hB
        subst hB
        rfl
  | afterDownload =>
    rw [generateCues]
    dsimp only
    split
    · refine ⟨hm, ?_⟩
      intro e he
      simp at he
      rcases he with rfl | rfl | rfl | rfl <;> rfl
    · have hsf := stepFold_preserve ⟨.afterDownload, g⟩ hid (headingIds d).enum
        ⟨d, 0, maxId d + 1, 0⟩
        ([Ev.annInfo msgCuesStart] ++ [Ev.availEv]
          ++ (if (Avail.afterDownload = Avail.afterDownload) then [Ev.annInfo msgDownload] else [])
          ++ [Ev.annInfo msgCuesCount])
        hm (allIdsLt_succ_maxId d)
        (by intro e he; simp at he; rcases he with rfl | rfl | rfl | rfl <;> rfl)
      refine ⟨hsf.1, ?_⟩
      intro e he
      rcases List.mem_append.mp he with hA | hB
      · exact hsf.2 e hA
      · simp at hB
        subst hB
        rfl

/-- C8 (amended): a heading marked by a first section-summaries run
stays marked after a second run on the resulting document, and the
second run performs no capability call for it and inserts no (second)
note after it — marked headings are skipped outright.  The set of
marked headings can still grow on the second run, because notes the
first run inserted add text to sections previously below the skip
threshold. -/
theorem C8_marked_preserved (d : Dom) (o : Oracle) (hid : Nat)
    (hm : isMarkedId (generateCues o d).1.doc hid = true) :
    isMarkedId (generateCues o (generateCues o d).1.doc).1.doc hid = true
    ∧ ∀ e ∈ (generateCues o (generateCues o d).1.doc).2, touchesItem hid e = false :=
  cues_run_preserve o (generateCues o d).1.doc hid hm

/-- C8 witness: heading 7 of `d8` is marked by the first run and is
still marked after the second run. -/
theorem C8_marked_preserved_witness :
    isMarkedId (generateCues o8 (generateCues o8 d8).1.doc).1.doc 7 = true :=
  (C8_marked_preserved d8 o8 7 (by decide)).1

end CogLayer
